import Mathlib

/-!
Verification development for the deltafs-plfsdir-runner benchmark driver.

The definitions below are a shallow embedding of the single-file C++ source
`src/deltafs-plfsdir-runner.cc` (the full variant: the one with `mkconf`,
`writekey`, `writepoch`, `write` and the extended option parser in `main`).
C `int` values are modelled as `Int`; the libc `atoi` conversion is an
external collaborator and is passed in as an explicit function parameter.
Calls into the deltafs storage engine and MPI are modelled as an event
trace: the engine itself is external, so the trace records the calls the
driver issues on the error-free path (every engine call that returns a
failure makes the program exit immediately via `complain`, so the trace of
a run that completes is exactly the error-free trace).
-/

namespace PlfsdirRunner
/-- Model of `struct gs` from the source: the shared global data parsed
from the command line, with C `int` fields as `Int` and C strings as
`String`. -/
structure gs where
  bg : Int
  bbos : Int
  bbosport : Int
  bboshostname : String
  dirname : String
  myrank : Int
  commsz : Int
  nepochs : Int
  nkeys : Int
  filterbits : Int
  keysz : Int
  valsz : Int
  iosz : Int
  logrotation : Int
  timeout : Int
  v : Int
deriving DecidableEq, Repr

/-- Character for one decimal digit (0-9), as printf renders it. -/
def decDigitChar (d : Nat) : Char := Char.ofNat (48 + d)

/-- Character for one lowercase hexadecimal digit (0-15), as printf `%x`
renders it: `0`-`9` then `a`-`f`. -/
def hexDigitChar (d : Nat) : Char :=
  if d < 10 then Char.ofNat (48 + d) else Char.ofNat (87 + d)

/-- Decimal rendering of a natural number without leading zeros, as printf
renders a value below `10 ^ 10` (which covers every 32-bit C int): the ten
base-10 digit windows, leading zeros stripped, with zero rendered as "0". -/
def natDecChars (n : Nat) : List Char :=
  let ds := (List.range 10).reverse.map fun i => decDigitChar (n / 10 ^ i % 10)
  let t := ds.dropWhile (fun c => c = '0')
  if t.isEmpty then ['0'] else t

/-- Rendering of a C `int` by printf `%d`: an optional minus sign followed
by the decimal digits of the absolute value. -/
def intDecChars (i : Int) : List Char :=
  if i < 0 then '-' :: natDecChars i.natAbs else natDecChars i.natAbs

/-- String form of the printf `%d` rendering. -/
def intDec (i : Int) : String := ⟨intDecChars i⟩

/-- Conversion of a C `int` argument to the `unsigned int` value that the
printf `%x` conversion actually formats (reduction modulo `2 ^ 32`). -/
def toUint32 (i : Int) : Nat := (i % (4294967296 : Int)).toNat

/-- Rendering of printf `%08x` applied to an `unsigned int` value: exactly
eight lowercase hex digits (a 32-bit value never needs more than eight,
and the `08` flag zero-pads shorter ones to width eight). -/
def hex8Chars (n : Nat) : List Char :=
  [hexDigitChar (n / 16 ^ 7 % 16), hexDigitChar (n / 16 ^ 6 % 16),
   hexDigitChar (n / 16 ^ 5 % 16), hexDigitChar (n / 16 ^ 4 % 16),
   hexDigitChar (n / 16 ^ 3 % 16), hexDigitChar (n / 16 ^ 2 % 16),
   hexDigitChar (n / 16 % 16), hexDigitChar (n % 16)]

/-- Model of the key built by `writekey`:
`snprintf(fname, sizeof(fname), "f%08x-r%08x", k, g.myrank)` with
`char fname[20]`, so the rendered string is truncated to 19 characters
(snprintf keeps one byte for the terminator). -/
def writekeyChars (k rank : Int) : List Char :=
  ('f' :: hex8Chars (toUint32 k) ++ '-' :: 'r' :: hex8Chars (toUint32 rank)).take 19

/-- Key string passed to `deltafs_plfsdir_append` by `writekey(k, e, v)`. -/
def writekeyName (k rank : Int) : String := ⟨writekeyChars k rank⟩

/-- Value payload built by `writepoch`: `v.resize(g.valsz, ...)` on an
empty string with the dot fill character, a filler of `valsz` dots. -/
def filler (st : gs) : String := ⟨List.replicate st.valsz.toNat '.'⟩

/-- Full rendered plfsdir configuration descriptor exactly as the chain of
snprintf calls in `mkconf` lays it out in the 500-byte buffer `cf`, before
any truncation: the format strings of the source, with each `%d` replaced
by the printf rendering of the corresponding global. The final call writes
the `lg_parts` field with the constant `0`. -/
def mkconfFull (st : gs) : String :=
  "rank=" ++ intDec st.myrank
    ++ "&tail_padding=1&block_padding=1"
    ++ "&data_buffer=" ++ intDec st.iosz
    ++ "&min_data_buffer=" ++ intDec st.iosz
    ++ "&index_buffer=" ++ intDec st.iosz
    ++ "&min_index_buffer=" ++ intDec st.iosz
    ++ "&key_size=" ++ intDec st.keysz
    ++ "&value_size=" ++ intDec st.valsz
    ++ "&bf_bits_per_key=" ++ intDec st.filterbits
    ++ "&epoch_log_rotation=" ++ intDec st.logrotation
    ++ "&lg_parts=" ++ intDec 0

/-- Descriptor actually left in `cf` by `mkconf`: snprintf into the
500-byte buffer keeps at most 499 characters plus the terminator, so the
rendered string is truncated to 499 characters. -/
def mkconf (st : gs) : String := ⟨(mkconfFull st).data.take 499⟩

/-- Sample parameter state: the source defaults on rank 0 of a world of
size 1, with a concrete plfsdir path. -/
def sampleGs : gs :=
  { bg := 0, bbos := 0, bbosport := 12345, bboshostname := "127.0.0.1",
    dirname := "/tmp/plfsdir", myrank := 0, commsz := 1, nepochs := 8,
    nkeys := 1024, filterbits := 10, keysz := 8, valsz := 32,
    iosz := 2097152, logrotation := 0, timeout := 300, v := 0 }

/-- Field list of the descriptor as the specification states it: fixed
names in a fixed order, the rank field first, tail_padding and
block_padding fixed to 1, the four buffer fields set to the configured io
size, then key_size, value_size, bf_bits_per_key, epoch_log_rotation, and
lg_parts fixed to 0. -/
def specFields (st : gs) : List (String × String) :=
  [("rank", intDec st.myrank),
   ("tail_padding", "1"),
   ("block_padding", "1"),
   ("data_buffer", intDec st.iosz),
   ("min_data_buffer", intDec st.iosz),
   ("index_buffer", intDec st.iosz),
   ("min_index_buffer", intDec st.iosz),
   ("key_size", intDec st.keysz),
   ("value_size", intDec st.valsz),
   ("bf_bits_per_key", intDec st.filterbits),
   ("epoch_log_rotation", intDec st.logrotation),
   ("lg_parts", "0")]

/-- Serialization of a field list as the specification describes the
descriptor: `key=value` items joined by `&`. -/
def renderFields (fs : List (String × String)) : String :=
  String.intercalate "&" (fs.map fun kv => kv.1 ++ "=" ++ kv.2)

/-- Observable calls the driver issues on the error-free path, in program
order: arming the watchdog alarm, the barrier in `main` before `write`,
opening the plfsdir handle on the configuration descriptor and path, one
`deltafs_plfsdir_append` per record, the per-epoch `MPI_Barrier`, the
per-epoch `deltafs_plfsdir_epoch_flush`, and the final
`deltafs_plfsdir_finish`. -/
inductive Event where
  | arm (timeout : Int)
  | mainBarrier
  | openDir (conf : String) (path : String)
  | append (key : String) (epoch : Nat) (value : String)
  | barrier (epoch : Nat)
  | flush (epoch : Nat)
  | finish
deriving DecidableEq, Repr

/-- Calls issued by `writepoch(e)`: one `writekey(i, e, v)` append per
`i` in `0 .. nkeys-1` with the filler value, then the `MPI_Barrier`, then
the `deltafs_plfsdir_epoch_flush(dir, e)`. -/
def writepochTrace (st : gs) (e : Nat) : List Event :=
  ((List.range st.nkeys.toNat).map fun i =>
    Event.append (writekeyName (Int.ofNat i) st.myrank) e (filler st))
  ++ [Event.barrier e, Event.flush e]

/-- Calls issued by `write()`: open the handle on the `mkconf` descriptor
and the directory path, run `writepoch(e)` for each epoch `e` in
`0 .. nepochs-1`, then `deltafs_plfsdir_finish`. -/
def writeTrace (st : gs) : List Event :=
  Event.openDir (mkconf st) st.dirname ::
    (((List.range st.nepochs.toNat).map (writepochTrace st)).flatten ++ [Event.finish])

/-- Calls issued by `main` after options are parsed: arm the alarm with
the configured timeout, synchronize all ranks once, then run `write()`. -/
def mainTrace (st : gs) : List Event :=
  Event.arm st.timeout :: Event.mainBarrier :: writeTrace st

/-- Program-order compatibility of two events of `write()`: the open
event precedes everything, the finish event follows everything, and
within the epoch protocol an event of epoch `e1` may precede an event of
epoch `e2` only as the per-epoch order append-then-barrier-then-flush and
the global order of epochs allow. -/
def evLe (a b : Event) : Prop :=
  match a, b with
  | .openDir _ _, _ => True
  | _, .finish => True
  | .append _ e1 _, .append _ e2 _ => e1 ≤ e2
  | .append _ e1 _, .barrier e2 => e1 ≤ e2
  | .append _ e1 _, .flush e2 => e1 ≤ e2
  | .barrier e1, .append _ e2 _ => e1 < e2
  | .barrier e1, .barrier e2 => e1 < e2
  | .barrier e1, .flush e2 => e1 ≤ e2
  | .flush e1, .append _ e2 _ => e1 < e2
  | .flush e1, .barrier e2 => e1 < e2
  | .flush e1, .flush e2 => e1 < e2
  | _, _ => False

/-- Boolean test for an append call tagged with epoch `e`. -/
def isAppendAt (e : Nat) : Event → Bool := fun x =>
  match x with
  | .append _ e2 _ => e2 == e
  | _ => false

/-- Boolean test for a barrier call issued inside `writepoch(e)`. -/
def isBarrierAt (e : Nat) : Event → Bool := fun x =>
  match x with
  | .barrier e2 => e2 == e
  | _ => false

/-- Boolean test for the epoch flush call of epoch `e`. -/
def isFlushAt (e : Nat) : Event → Bool := fun x =>
  match x with
  | .flush e2 => e2 == e
  | _ => false

/-- Boolean test for any epoch flush call. -/
def isFlushAny : Event → Bool := fun x =>
  match x with
  | .flush _ => true
  | _ => false

/-- Boolean test for any append call. -/
def isAppendAny : Event → Bool := fun x =>
  match x with
  | .append _ _ _ => true
  | _ => false

/-- Boolean test for the finish call. -/
def isFinish : Event → Bool := fun x =>
  match x with
  | .finish => true
  | _ => false

/-- Parameter state with two epochs of one key each, used to exercise the
ordering theorem on a concrete trace. -/
def twoEpochGs : gs := { sampleGs with nepochs := 2, nkeys := 1 }

/-- Scenario A parameters: two epochs, four keys per epoch, key size 8,
value size 4, on a single rank. -/
def scenarioAGs : gs :=
  { sampleGs with nepochs := 2, nkeys := 4, keysz := 8, valsz := 4 }

/-- Parameter state with value size zero and a single one-key epoch. -/
def zeroValGs : gs := { sampleGs with valsz := 0, nepochs := 1, nkeys := 1 }

/-- Projection keeping only the append calls of a trace, with their key,
epoch tag and value payload. -/
def appendCallOf : Event → Option (String × Nat × String) := fun x =>
  match x with
  | .append k e vv => some (k, e, vv)
  | _ => none

/-- Command line options of the getopt loop over `s:e:n:f:k:d:j:t:rvb`,
each value-carrying option holding its raw `optarg` string; `unknown` is
any option letter outside the set (the `default:` case of the switch). -/
inductive CmdOpt where
  | s (a : String)
  | e (a : String)
  | n (a : String)
  | f (a : String)
  | k (a : String)
  | d (a : String)
  | j (a : String)
  | t (a : String)
  | r
  | b
  | v
  | unknown
deriving DecidableEq, Repr

/-- Effect of one iteration of the getopt switch in `main`: store the
`atoi` of the option argument into the matching global and fail through
`usage(...)` (which exits) on an out-of-range value; `-r`, `-b` and `-v`
set their flag. The libc `atoi` is an external collaborator passed in as
a function. -/
def applyOpt (atoi : String → Int) (st : gs) : CmdOpt → Except String gs
  | .s a => if atoi a ≤ 0 then .error "bad io size" else .ok { st with iosz := atoi a }
  | .e a => if atoi a < 0 then .error "bad epoch nums" else .ok { st with nepochs := atoi a }
  | .n a => if atoi a < 0 then .error "bad key nums" else .ok { st with nkeys := atoi a }
  | .f a => if atoi a < 0 then .error "bad filter bits" else .ok { st with filterbits := atoi a }
  | .k a => if atoi a ≤ 0 then .error "bad key size" else .ok { st with keysz := atoi a }
  | .d a => if atoi a < 0 then .error "bad value size" else .ok { st with valsz := atoi a }
  | .j a => if atoi a < 0 then .error "bad bg number" else .ok { st with bg := atoi a }
  | .t a => if atoi a < 0 then .error "bad timeout" else .ok { st with timeout := atoi a }
  | .r => .ok { st with logrotation := 1 }
  | .b => .ok { st with bbos := 1 }
  | .v => .ok { st with v := 1 }
  | .unknown => .error "usage"

/-- Whole getopt loop: options processed left to right, stopping at the
first failing one (in the source `usage` exits the process there). -/
def parseOpts (atoi : String → Int) : gs → List CmdOpt → Except String gs
  | st, [] => .ok st
  | st, o :: rest =>
    match applyOpt atoi st o with
    | .error m => .error m
    | .ok st2 => parseOpts atoi st2 rest

/-- Globals right before the getopt loop: `memset` to zero and then the
`DEF_*` defaults assigned, with the MPI rank and world size filled in. -/
def initGs (myrank commsz : Int) : gs :=
  { bg := 0, bbos := 0, bbosport := 12345, bboshostname := "127.0.0.1",
    dirname := "", myrank := myrank, commsz := commsz, nepochs := 8,
    nkeys := 1024, filterbits := 10, keysz := 8, valsz := 32,
    iosz := 2097152, logrotation := 0, timeout := 300, v := 0 }

/-- Handling of the positional arguments after the getopt loop: a missing
plfsdir path is a usage error; the optional second and third positionals
override the bbos hostname and (via `atoi`) the bbos port; the port check
`g.bbosport <= 0` runs unconditionally afterwards. -/
def parsePositional (atoi : String → Int) (st : gs) (pos : List String) :
    Except String gs :=
  match pos with
  | [] => .error "bad args"
  | dir :: rest =>
    let st1 := { st with dirname := dir }
    let st2 :=
      match rest with
      | [] => st1
      | host :: rest2 =>
        let sth := { st1 with bboshostname := host }
        match rest2 with
        | [] => sth
        | pstr :: _ => { sth with bbosport := atoi pstr }
    if st2.bbosport ≤ 0 then .error "bad bbos port" else .ok st2

/-- Full argument handling of `main`: defaults, then the getopt loop,
then the positional arguments and the port check. -/
def parseCmdLine (atoi : String → Int) (myrank commsz : Int)
    (opts : List CmdOpt) (pos : List String) : Except String gs :=
  match parseOpts atoi (initGs myrank commsz) opts with
  | .error m => .error m
  | .ok st => parsePositional atoi st pos

/-- Observable outcome of `main` on the error-free storage path: exit
status and the calls issued. Any usage error exits with status 1 before
the alarm is armed or any session is opened (empty trace); otherwise the
run arms the watchdog, synchronizes, runs `write()` and exits 0. -/
def mainModel (atoi : String → Int) (myrank commsz : Int)
    (opts : List CmdOpt) (pos : List String) : Int × List Event :=
  match parseCmdLine atoi myrank commsz opts pos with
  | .error _ => (1, [])
  | .ok st => (0, mainTrace st)

/-- Constant function standing in for `atoi` in concrete tests. -/
def constAtoi (x : Int) : String → Int := fun _ => x

/-- Exit status of `vcomplain`, through which every fatal configuration,
coordination and I/O error of the program funnels: it prints one
diagnostic line and calls `exit(1)`. -/
def complainExitCode : Int := 1

/-- Exit status of the SIGALRM handler `sigalarm`: after printing its two
diagnostic lines it calls `exit(1)`. -/
def sigalarmExitCode : Int := 1

/-- Run interrupted by the watchdog: the alarm is delivered after `n`
events of the run have been issued and before the run finished, so the
observed behavior is that prefix of the call trace together with the exit
status of the `sigalarm` handler. Real elapsed time is abstracted into
the interruption point `n`. -/
def alarmedRun (st : gs) (n : Nat) : Int × List Event :=
  (sigalarmExitCode, (mainTrace st).take n)

/-- Boolean test for the alarm-arming action. -/
def isArm : Event → Bool := fun x =>
  match x with
  | .arm _ => true
  | _ => false

lemma hex8Chars_length (n : Nat) : (hex8Chars n).length = 8 := by
  simp [hex8Chars]

lemma writekeyChars_untruncated (k rank : Int) :
    writekeyChars k rank =
      'f' :: hex8Chars (toUint32 k) ++ '-' :: 'r' :: hex8Chars (toUint32 rank) := by
  unfold writekeyChars
  apply List.take_of_length_le
  simp [hex8Chars]

lemma writekeyChars_length (k rank : Int) : (writekeyChars k rank).length = 19 := by
  rw [writekeyChars_untruncated]
  simp [hex8Chars]

lemma writekeyName_length (k rank : Int) : (writekeyName k rank).length = 19 := by
  have h : (writekeyName k rank).length = (writekeyChars k rank).length := rfl
  rw [h, writekeyChars_length]

lemma hexDigitChar_inj_fin : ∀ a b : Fin 16, hexDigitChar a = hexDigitChar b → a = b := by
  decide

lemma hexDigitChar_inj {a b : Nat} (ha : a < 16) (hb : b < 16)
    (h : hexDigitChar a = hexDigitChar b) : a = b := by
  have := hexDigitChar_inj_fin ⟨a, ha⟩ ⟨b, hb⟩ h
  exact congrArg Fin.val this

lemma toUint32_lt (i : Int) : toUint32 i < 4294967296 := by
  unfold toUint32
  have h1 : i % (4294967296 : Int) < 4294967296 :=
    Int.emod_lt_of_pos i (by norm_num)
  omega

lemma hex8Chars_inj {a b : Nat} (ha : a < 4294967296) (hb : b < 4294967296)
    (h : hex8Chars a = hex8Chars b) : a = b := by
  unfold hex8Chars at h
  simp only [List.cons.injEq, and_true] at h
  obtain ⟨h7, h6, h5, h4, h3, h2, h1, h0⟩ := h
  have d7 := hexDigitChar_inj (Nat.mod_lt _ (by norm_num)) (Nat.mod_lt _ (by norm_num)) h7
  have d6 := hexDigitChar_inj (Nat.mod_lt _ (by norm_num)) (Nat.mod_lt _ (by norm_num)) h6
  have d5 := hexDigitChar_inj (Nat.mod_lt _ (by norm_num)) (Nat.mod_lt _ (by norm_num)) h5
  have d4 := hexDigitChar_inj (Nat.mod_lt _ (by norm_num)) (Nat.mod_lt _ (by norm_num)) h4
  have d3 := hexDigitChar_inj (Nat.mod_lt _ (by norm_num)) (Nat.mod_lt _ (by norm_num)) h3
  have d2 := hexDigitChar_inj (Nat.mod_lt _ (by norm_num)) (Nat.mod_lt _ (by norm_num)) h2
  have d1 := hexDigitChar_inj (Nat.mod_lt _ (by norm_num)) (Nat.mod_lt _ (by norm_num)) h1
  have d0 := hexDigitChar_inj (Nat.mod_lt _ (by norm_num)) (Nat.mod_lt _ (by norm_num)) h0
  omega

lemma toUint32_eq_self {i : Int} (h0 : 0 ≤ i) (h1 : i < 4294967296) :
    (toUint32 i : Int) = i := by
  unfold toUint32
  rw [Int.emod_eq_of_lt h0 h1]
  omega

lemma writekeyName_inj {k1 r1 k2 r2 : Int}
    (hk1 : 0 ≤ k1) (hk1u : k1 < 2147483648)
    (hr1 : 0 ≤ r1) (hr1u : r1 < 2147483648)
    (hk2 : 0 ≤ k2) (hk2u : k2 < 2147483648)
    (hr2 : 0 ≤ r2) (hr2u : r2 < 2147483648)
    (h : writekeyName k1 r1 = writekeyName k2 r2) : k1 = k2 ∧ r1 = r2 := by
  have hc : writekeyChars k1 r1 = writekeyChars k2 r2 := congrArg String.data h
  rw [writekeyChars_untruncated, writekeyChars_untruncated] at hc
  have hlen : ('f' :: hex8Chars (toUint32 k1)).length =
      ('f' :: hex8Chars (toUint32 k2)).length := by
    simp [hex8Chars_length]
  obtain ⟨hkeq, hrest⟩ := List.append_inj hc hlen
  simp only [List.cons.injEq, eq_self_iff_true, true_and] at hkeq hrest
  have hku : toUint32 k1 = toUint32 k2 :=
    hex8Chars_inj (toUint32_lt k1) (toUint32_lt k2) hkeq
  have hru : toUint32 r1 = toUint32 r2 :=
    hex8Chars_inj (toUint32_lt r1) (toUint32_lt r2) hrest
  constructor
  · have e1 := toUint32_eq_self hk1 (by omega)
    have e2 := toUint32_eq_self hk2 (by omega)
    omega
  · have e1 := toUint32_eq_self hr1 (by omega)
    have e2 := toUint32_eq_self hr2 (by omega)
    omega

/-- C4: key construction is deterministic (a pure function of index and
rank) and injective: for all distinct (index, rank) pairs of values in the
nonnegative C-int range, the keys built by `writekey` differ. -/
theorem c4_writekey_deterministic_injective (k1 r1 k2 r2 : Int)
    (hk1 : 0 ≤ k1) (hk1u : k1 < 2147483648)
    (hr1 : 0 ≤ r1) (hr1u : r1 < 2147483648)
    (hk2 : 0 ≤ k2) (hk2u : k2 < 2147483648)
    (hr2 : 0 ≤ r2) (hr2u : r2 < 2147483648)
    (hne : (k1, r1) ≠ (k2, r2)) :
    writekeyName k1 r1 ≠ writekeyName k2 r2 := by
  intro h
  obtain ⟨hk, hr⟩ := writekeyName_inj hk1 hk1u hr1 hr1u hk2 hk2u hr2 hr2u h
  exact hne (by rw [hk, hr])

/-- C4 witness: the keys for (index 5, rank 2), (index 5, rank 3) and
(index 6, rank 2) are pairwise distinct, by the injectivity theorem at
those concrete inputs. -/
theorem c4_witness :
    writekeyName 5 2 ≠ writekeyName 5 3 ∧ writekeyName 5 2 ≠ writekeyName 6 2 :=
  ⟨c4_writekey_deterministic_injective 5 2 5 3 (by decide) (by decide) (by decide)
      (by decide) (by decide) (by decide) (by decide) (by decide) (by decide),
   c4_writekey_deterministic_injective 5 2 6 2 (by decide) (by decide) (by decide)
      (by decide) (by decide) (by decide) (by decide) (by decide) (by decide)⟩

lemma natDecChars_length_le (n : Nat) : (natDecChars n).length ≤ 10 := by
  unfold natDecChars
  set ds := (List.range 10).reverse.map fun i => decDigitChar (n / 10 ^ i % 10) with hds
  have hlen : ds.length = 10 := by simp [hds]
  by_cases h : (ds.dropWhile (fun c => c = '0')).isEmpty
  · simp [h]
  · simp only [h, if_neg, Bool.false_eq_true, not_false_eq_true, if_false]
    calc (ds.dropWhile (fun c => c = '0')).length
        ≤ ds.length := (List.dropWhile_sublist _).length_le
      _ = 10 := hlen

lemma intDec_length_le (i : Int) : (intDec i).length ≤ 11 := by
  have h : (intDec i).length = (intDecChars i).length := rfl
  rw [h]
  unfold intDecChars
  by_cases hneg : i < 0
  · simp only [hneg, if_true]
    have := natDecChars_length_le i.natAbs
    simp only [List.length_cons]
    omega
  · simp only [hneg, if_false]
    exact le_trans (natDecChars_length_le i.natAbs) (by norm_num)

lemma mkconfFull_length_le (st : gs) : (mkconfFull st).length ≤ 267 := by
  have h1 := intDec_length_le st.myrank
  have h2 := intDec_length_le st.iosz
  have h3 := intDec_length_le st.keysz
  have h4 := intDec_length_le st.valsz
  have h5 := intDec_length_le st.filterbits
  have h6 := intDec_length_le st.logrotation
  have h7 : (intDec 0).length = 1 := rfl
  have e1 : ("rank=" : String).length = 5 := rfl
  have e2 : ("&tail_padding=1&block_padding=1" : String).length = 31 := rfl
  have e3 : ("&data_buffer=" : String).length = 13 := rfl
  have e4 : ("&min_data_buffer=" : String).length = 17 := rfl
  have e5 : ("&index_buffer=" : String).length = 14 := rfl
  have e6 : ("&min_index_buffer=" : String).length = 18 := rfl
  have e7 : ("&key_size=" : String).length = 10 := rfl
  have e8 : ("&value_size=" : String).length = 12 := rfl
  have e9 : ("&bf_bits_per_key=" : String).length = 17 := rfl
  have e10 : ("&epoch_log_rotation=" : String).length = 20 := rfl
  have e11 : ("&lg_parts=" : String).length = 10 := rfl
  simp only [mkconfFull, String.length_append]
  omega

lemma mkconf_eq_full (st : gs) : mkconf st = mkconfFull st := by
  unfold mkconf
  have hlen : (mkconfFull st).data.length ≤ 499 := by
    have := mkconfFull_length_le st
    have h : (mkconfFull st).length = (mkconfFull st).data.length := rfl
    omega
  rw [List.take_of_length_le hlen]

/-- C2: the rendered configuration descriptor never exceeds the reserved
500-byte buffer `cf` (its length is at most 267 for every C-int parameter
set), so the overflow case in which the builder would have to fail or
truncate never arises, and the string stored in `cf` is always the full
untruncated rendering. -/
theorem c2_mkconf_never_overflows_never_truncates (st : gs)
    (hrank : -2147483648 ≤ st.myrank) (hranku : st.myrank < 2147483648)
    (hio : -2147483648 ≤ st.iosz) (hiou : st.iosz < 2147483648)
    (hk : -2147483648 ≤ st.keysz) (hku : st.keysz < 2147483648)
    (hv : -2147483648 ≤ st.valsz) (hvu : st.valsz < 2147483648)
    (hf : -2147483648 ≤ st.filterbits) (hfu : st.filterbits < 2147483648)
    (hl : -2147483648 ≤ st.logrotation) (hlu : st.logrotation < 2147483648) :
    (mkconfFull st).length < 500 ∧ mkconf st = mkconfFull st :=
  ⟨lt_of_le_of_lt (mkconfFull_length_le st) (by norm_num), mkconf_eq_full st⟩

/-- C2 witness: the theorem applied at the default parameter state. -/
theorem c2_witness :
    (mkconfFull sampleGs).length < 500 ∧ mkconf sampleGs = mkconfFull sampleGs :=
  c2_mkconf_never_overflows_never_truncates sampleGs (by decide) (by decide)
    (by decide) (by decide) (by decide) (by decide) (by decide) (by decide)
    (by decide) (by decide) (by decide) (by decide)

/-- C3: for every C-int parameter set, the descriptor `mkconf` leaves in
`cf` equals the specification-side serialization of the twelve fixed
fields in their fixed order, with the rank field first. -/
theorem c3_mkconf_field_order (st : gs)
    (hrank : -2147483648 ≤ st.myrank) (hranku : st.myrank < 2147483648)
    (hio : -2147483648 ≤ st.iosz) (hiou : st.iosz < 2147483648)
    (hk : -2147483648 ≤ st.keysz) (hku : st.keysz < 2147483648)
    (hv : -2147483648 ≤ st.valsz) (hvu : st.valsz < 2147483648)
    (hf : -2147483648 ≤ st.filterbits) (hfu : st.filterbits < 2147483648)
    (hl : -2147483648 ≤ st.logrotation) (hlu : st.logrotation < 2147483648) :
    mkconf st = renderFields (specFields st) ∧
      (specFields st).head? = some ("rank", intDec st.myrank) := by
  refine ⟨?_, rfl⟩
  rw [mkconf_eq_full st]
  show mkconfFull st = renderFields (specFields st)
  unfold renderFields specFields
  simp only [List.map_cons, List.map_nil]
  simp only [String.intercalate, String.intercalate.go]
  unfold mkconfFull
  rw [show ("rank=" : String) = "rank" ++ "=" from rfl]
  rw [show ("&tail_padding=1&block_padding=1" : String) =
    "&" ++ ("tail_padding" ++ "=" ++ "1") ++ "&" ++ ("block_padding" ++ "=" ++ "1") from rfl]
  rw [show ("&data_buffer=" : String) = "&" ++ "data_buffer" ++ "=" from rfl]
  rw [show ("&min_data_buffer=" : String) = "&" ++ "min_data_buffer" ++ "=" from rfl]
  rw [show ("&index_buffer=" : String) = "&" ++ "index_buffer" ++ "=" from rfl]
  rw [show ("&min_index_buffer=" : String) = "&" ++ "min_index_buffer" ++ "=" from rfl]
  rw [show ("&key_size=" : String) = "&" ++ "key_size" ++ "=" from rfl]
  rw [show ("&value_size=" : String) = "&" ++ "value_size" ++ "=" from rfl]
  rw [show ("&bf_bits_per_key=" : String) = "&" ++ "bf_bits_per_key" ++ "=" from rfl]
  rw [show ("&epoch_log_rotation=" : String) = "&" ++ "epoch_log_rotation" ++ "=" from rfl]
  rw [show ("&lg_parts=" : String) = "&" ++ "lg_parts" ++ "=" from rfl]
  rw [show intDec 0 = "0" from rfl]
  simp only [String.append_assoc]

/-- C3 witness: the theorem applied at the default parameter state. -/
theorem c3_witness :
    mkconf sampleGs = renderFields (specFields sampleGs) ∧
      (specFields sampleGs).head? = some ("rank", intDec sampleGs.myrank) :=
  c3_mkconf_field_order sampleGs (by decide) (by decide) (by decide) (by decide)
    (by decide) (by decide) (by decide) (by decide) (by decide) (by decide)
    (by decide) (by decide)

lemma pairwise_of_total {α : Type} {R : α → α → Prop} (h : ∀ a b, R a b) :
    ∀ l : List α, l.Pairwise R := by
  intro l
  induction l with
  | nil => exact .nil
  | cons x xs ih => exact .cons (fun y _ => h x y) ih

lemma mem_writepochTrace {st : gs} {e : Nat} {x : Event}
    (hx : x ∈ writepochTrace st e) :
    (∃ i : Nat, i < st.nkeys.toNat ∧
        x = Event.append (writekeyName (Int.ofNat i) st.myrank) e (filler st)) ∨
      x = Event.barrier e ∨ x = Event.flush e := by
  unfold writepochTrace at hx
  rcases List.mem_append.1 hx with h | h
  · obtain ⟨i, hi, hxe⟩ := List.mem_map.1 h
    exact Or.inl ⟨i, List.mem_range.1 hi, hxe.symm⟩
  · rcases List.mem_cons.1 h with h1 | h1
    · exact Or.inr (Or.inl h1)
    · rcases List.mem_cons.1 h1 with h2 | h2
      · exact Or.inr (Or.inr h2)
      · cases h2

lemma pairwise_writepochTrace (st : gs) (e : Nat) :
    (writepochTrace st e).Pairwise evLe := by
  unfold writepochTrace
  rw [List.pairwise_append]
  refine ⟨?_, ?_, ?_⟩
  · rw [List.pairwise_map]
    exact pairwise_of_total (fun a b => Nat.le_refl e) _
  · exact List.Pairwise.cons (by
      intro y hy
      rcases List.mem_cons.1 hy with h1 | h1
      · subst h1; exact Nat.le_refl e
      · cases h1) (List.pairwise_singleton _ _)
  · intro a ha b hb
    obtain ⟨i, hi, hae⟩ := List.mem_map.1 ha
    subst hae
    rcases List.mem_cons.1 hb with h1 | h1
    · subst h1; exact Nat.le_refl e
    · rcases List.mem_cons.1 h1 with h2 | h2
      · subst h2; exact Nat.le_refl e
      · cases h2

lemma pairwise_writeTrace (st : gs) : (writeTrace st).Pairwise evLe := by
  unfold writeTrace
  refine List.Pairwise.cons (fun y _ => by cases y <;> trivial) ?_
  rw [List.pairwise_append]
  refine ⟨?_, List.pairwise_singleton _ _, ?_⟩
  · rw [List.pairwise_flatten]
    constructor
    · intro l hl
      obtain ⟨e, _, hle⟩ := List.mem_map.1 hl
      subst hle
      exact pairwise_writepochTrace st e
    · rw [List.pairwise_map]
      refine (List.pairwise_lt_range _).imp ?_
      intro e1 e2 hlt x hx y hy
      rcases mem_writepochTrace hx with ⟨i, _, hxe⟩ | hxe | hxe <;> subst hxe <;>
        rcases mem_writepochTrace hy with ⟨j, _, hye⟩ | hye | hye <;> subst hye <;>
        first
          | exact Nat.le_of_lt hlt
          | exact hlt
  · intro a _ b hb
    rcases List.mem_cons.1 hb with h1 | h1
    · subst h1; cases a <;> trivial
    · cases h1

lemma index_lt_of_pairwise {t : List Event} (hp : t.Pairwise evLe) {i j : Nat}
    {x y : Event} (hi : t[i]? = some x) (hj : t[j]? = some y)
    (hne : x ≠ y) (hn : ¬ evLe y x) : i < j := by
  rcases Nat.lt_trichotomy i j with h | h | h
  · exact h
  · subst h
    rw [hi] at hj
    cases hj
    exact absurd rfl hne
  · obtain ⟨hil, hig⟩ := List.getElem?_eq_some_iff.1 hi
    obtain ⟨hjl, hjg⟩ := List.getElem?_eq_some_iff.1 hj
    have hle := List.pairwise_iff_get.1 hp ⟨j, hjl⟩ ⟨i, hil⟩ h
    rw [List.get_eq_getElem, List.get_eq_getElem] at hle
    simp only [hig, hjg] at hle
    exact absurd hle hn

lemma sum_map_ite_range (n e c : Nat) :
    ((List.range n).map fun x => if x = e then c else 0).sum =
      if e < n then c else 0 := by
  induction n with
  | zero => simp
  | succ m ih =>
    rw [List.range_succ, List.map_append, List.sum_append, ih]
    by_cases h1 : e < m
    · have h2 : e < m + 1 := Nat.lt_succ_of_lt h1
      have h3 : ¬ m = e := by omega
      simp [h1, h2, h3]
    · by_cases h4 : e = m
      · subst h4
        simp [h1]
      · have h5 : ¬ e < m + 1 := by omega
        have h6 : ¬ m = e := by omega
        simp [h1, h5, h6]

lemma countP_writepochTrace_append (st : gs) (e2 e : Nat) :
    (writepochTrace st e2).countP (isAppendAt e) =
      if e2 = e then st.nkeys.toNat else 0 := by
  unfold writepochTrace
  rw [List.countP_append, List.countP_map]
  have hbf : ([Event.barrier e2, Event.flush e2].countP (isAppendAt e)) = 0 := rfl
  rw [hbf]
  by_cases h : e2 = e
  · subst h
    have : (isAppendAt e2 ∘ fun i =>
        Event.append (writekeyName (Int.ofNat i) st.myrank) e2 (filler st)) =
        fun _ => true := by
      funext i
      simp [isAppendAt, Function.comp]
    rw [this]
    simp [List.countP_true]
  · have : (isAppendAt e ∘ fun i =>
        Event.append (writekeyName (Int.ofNat i) st.myrank) e2 (filler st)) =
        fun _ => false := by
      funext i
      simp [isAppendAt, Function.comp, h]
    rw [this]
    simp [List.countP_false, h]

lemma countP_writepochTrace_barrier (st : gs) (e2 e : Nat) :
    (writepochTrace st e2).countP (isBarrierAt e) = if e2 = e then 1 else 0 := by
  unfold writepochTrace
  rw [List.countP_append, List.countP_map]
  have h1 : (isBarrierAt e ∘ fun i =>
      Event.append (writekeyName (Int.ofNat i) st.myrank) e2 (filler st)) =
      fun _ => false := by
    funext i
    simp [isBarrierAt, Function.comp]
  rw [h1]
  simp only [List.countP_false, Function.const_apply, Nat.zero_add]
  by_cases h : e2 = e
  · subst h
    simp [List.countP_cons, isBarrierAt, isFlushAt]
  · simp [List.countP_cons, isBarrierAt, h]

lemma countP_writepochTrace_flush (st : gs) (e2 e : Nat) :
    (writepochTrace st e2).countP (isFlushAt e) = if e2 = e then 1 else 0 := by
  unfold writepochTrace
  rw [List.countP_append, List.countP_map]
  have h1 : (isFlushAt e ∘ fun i =>
      Event.append (writekeyName (Int.ofNat i) st.myrank) e2 (filler st)) =
      fun _ => false := by
    funext i
    simp [isFlushAt, Function.comp]
  rw [h1]
  simp only [List.countP_false, Function.const_apply, Nat.zero_add]
  by_cases h : e2 = e
  · subst h
    simp [List.countP_cons, isFlushAt]
  · simp [List.countP_cons, isFlushAt, h]

lemma countP_writeTrace (st : gs) (p : Event → Bool)
    (hopen : p (Event.openDir (mkconf st) st.dirname) = false)
    (hfin : p Event.finish = false)
    (c : Nat → Nat)
    (hblock : ∀ e2, (writepochTrace st e2).countP p = c e2) :
    (writeTrace st).countP p = ((List.range st.nepochs.toNat).map c).sum := by
  unfold writeTrace
  rw [List.countP_cons, hopen]
  simp only [if_false, Nat.add_zero, Bool.false_eq_true]
  rw [List.countP_append, List.countP_flatten, List.map_map]
  have h2 : ([Event.finish].countP p) = 0 := by
    simp [List.countP_cons, hfin]
  rw [h2, Nat.add_zero]
  have h4 : List.map (List.countP p ∘ writepochTrace st) (List.range st.nepochs.toNat) =
      List.map c (List.range st.nepochs.toNat) := by
    apply List.map_congr_left
    intro e2 _
    exact hblock e2
  exact congrArg List.sum h4

/-- C1: the per-epoch write protocol of the driver. In the trace of calls
issued by `write()`, every append tagged with epoch `e` precedes the
barrier of epoch `e`; the barrier of epoch `e` precedes the flush of
epoch `e`; every append tagged `e` precedes the flush of `e`; the flush
of epoch `e1` precedes every append tagged with a later epoch `e2`; and
each epoch `e` below the epoch count gets exactly `nkeys` appends, one
barrier and one flush. -/
theorem c1_epoch_protocol_ordering (st : gs) :
    (∀ (i j : Nat) (k vv : String) (e : Nat),
        (writeTrace st)[i]? = some (Event.append k e vv) →
        (writeTrace st)[j]? = some (Event.barrier e) → i < j) ∧
    (∀ (i j e : Nat), (writeTrace st)[i]? = some (Event.barrier e) →
        (writeTrace st)[j]? = some (Event.flush e) → i < j) ∧
    (∀ (i j : Nat) (k vv : String) (e : Nat),
        (writeTrace st)[i]? = some (Event.append k e vv) →
        (writeTrace st)[j]? = some (Event.flush e) → i < j) ∧
    (∀ (i j : Nat) (k vv : String) (e1 e2 : Nat), e1 < e2 →
        (writeTrace st)[i]? = some (Event.flush e1) →
        (writeTrace st)[j]? = some (Event.append k e2 vv) → i < j) ∧
    (∀ e : Nat, e < st.nepochs.toNat →
        (writeTrace st).countP (isAppendAt e) = st.nkeys.toNat ∧
        (writeTrace st).countP (isBarrierAt e) = 1 ∧
        (writeTrace st).countP (isFlushAt e) = 1) := by
  have hp := pairwise_writeTrace st
  refine ⟨?_, ?_, ?_, ?_, ?_⟩
  · intro i j k vv e hi hj
    refine index_lt_of_pairwise hp hi hj (by simp) ?_
    intro hcon
    simp only [evLe] at hcon
    omega
  · intro i j e hi hj
    refine index_lt_of_pairwise hp hi hj (by simp) ?_
    intro hcon
    simp only [evLe] at hcon
    omega
  · intro i j k vv e hi hj
    refine index_lt_of_pairwise hp hi hj (by simp) ?_
    intro hcon
    simp only [evLe] at hcon
    omega
  · intro i j k vv e1 e2 hlt hi hj
    refine index_lt_of_pairwise hp hi hj (by simp) ?_
    intro hcon
    simp only [evLe] at hcon
    omega
  · intro e he
    refine ⟨?_, ?_, ?_⟩
    · rw [countP_writeTrace st (isAppendAt e) rfl rfl
        (fun e2 => if e2 = e then st.nkeys.toNat else 0)
        (fun e2 => countP_writepochTrace_append st e2 e)]
      rw [sum_map_ite_range]
      simp [he]
    · rw [countP_writeTrace st (isBarrierAt e) rfl rfl
        (fun e2 => if e2 = e then 1 else 0)
        (fun e2 => countP_writepochTrace_barrier st e2 e)]
      rw [sum_map_ite_range]
      simp [he]
    · rw [countP_writeTrace st (isFlushAt e) rfl rfl
        (fun e2 => if e2 = e then 1 else 0)
        (fun e2 => countP_writepochTrace_flush st e2 e)]
      rw [sum_map_ite_range]
      simp [he]

/-- C1 witness: in the concrete trace of two one-key epochs, the epoch-0
append sits at index 1 and the epoch-0 flush at index 3, and the ordering
theorem places the former strictly before the latter. -/
theorem c1_witness :
    (writeTrace twoEpochGs)[1]? =
        some (Event.append (writekeyName 0 0) 0 (filler twoEpochGs)) ∧
    (writeTrace twoEpochGs)[3]? = some (Event.flush 0) ∧ 1 < 3 :=
  ⟨by decide, by decide,
    (c1_epoch_protocol_ordering twoEpochGs).2.2.1 1 3 (writekeyName 0 0)
      (filler twoEpochGs) 0 (by decide) (by decide)⟩

lemma append_mem_writeTrace {st : gs} {k : String} {e : Nat} {vv : String}
    (h : Event.append k e vv ∈ writeTrace st) :
    (∃ i : Nat, i < st.nkeys.toNat ∧ k = writekeyName (Int.ofNat i) st.myrank) ∧
      vv = filler st ∧ e < st.nepochs.toNat := by
  unfold writeTrace at h
  rcases List.mem_cons.1 h with h1 | h1
  · exact absurd h1 (by simp)
  rcases List.mem_append.1 h1 with h2 | h2
  · obtain ⟨l, hl, hxl⟩ := List.mem_flatten.1 h2
    obtain ⟨e2, he2, hle⟩ := List.mem_map.1 hl
    subst hle
    rcases mem_writepochTrace hxl with ⟨i, hi, hxe⟩ | hxe | hxe
    · obtain ⟨hk, he, hv⟩ := Event.append.inj hxe
      refine ⟨⟨i, hi, hk⟩, hv, ?_⟩
      rw [he]
      exact List.mem_range.1 he2
    · exact absurd hxe (by simp)
    · exact absurd hxe (by simp)
  · rcases List.mem_cons.1 h2 with h3 | h3
    · exact absurd h3 (by simp)
    · cases h3

/-- C5: with epochs=2, keysPerEpoch=4, keySize=8, valueSize=4 on a single
rank, the error-free run issues exactly two epoch flush calls, exactly
four appends tagged with each of the two epochs, four appends before the
first flush, and ends with the single finish call. -/
theorem c5_scenario_a_accounting :
    scenarioAGs.commsz = 1 ∧ scenarioAGs.myrank = 0 ∧
    (writeTrace scenarioAGs).countP isFlushAny = 2 ∧
    ((writeTrace scenarioAGs).takeWhile
      (fun x => !(isFlushAny x))).countP isAppendAny = 4 ∧
    (writeTrace scenarioAGs).countP (isAppendAt 0) = 4 ∧
    (writeTrace scenarioAGs).countP (isAppendAt 1) = 4 ∧
    (writeTrace scenarioAGs).getLast? = some Event.finish ∧
    (writeTrace scenarioAGs).countP isFinish = 1 := by
  decide

/-- C8: every record the driver appends carries exactly the configured
value size as its payload length, and with value size 0 the payload is
the empty string. -/
theorem c8_zero_value_size_supported (st : gs) (hval : 0 ≤ st.valsz) :
    ∀ (k : String) (e : Nat) (vv : String),
      Event.append k e vv ∈ writeTrace st →
      vv.length = st.valsz.toNat ∧ (st.valsz = 0 → vv = "") := by
  intro k e vv hmem
  obtain ⟨-, hv, -⟩ := append_mem_writeTrace hmem
  subst hv
  constructor
  · show (List.replicate st.valsz.toNat '.').length = st.valsz.toNat
    exact List.length_replicate _ _
  · intro h0
    show String.mk (List.replicate st.valsz.toNat '.') = ""
    rw [h0]
    rfl

/-- C8 witness: the record appended in the zero-value-size run carries
the empty payload, by the theorem at that concrete trace element. -/
theorem c8_witness :
    (Event.append (writekeyName 0 0) 0 "" ∈ writeTrace zeroValGs) ∧
      "".length = zeroValGs.valsz.toNat ∧ (zeroValGs.valsz = 0 → "" = "") :=
  ⟨by decide,
   c8_zero_value_size_supported zeroValGs (by decide) (writekeyName 0 0) 0 "" (by decide)⟩

lemma writepochTrace_keysz (st : gs) (x : Int) :
    writepochTrace { st with keysz := x } = writepochTrace st := by
  funext e
  unfold writepochTrace
  rfl

lemma writeTrace_keysz (st : gs) (x : Int) :
    writeTrace { st with keysz := x } =
      Event.openDir (mkconf { st with keysz := x }) st.dirname ::
        (((List.range st.nepochs.toNat).map (writepochTrace st)).flatten ++
          [Event.finish]) := by
  unfold writeTrace
  rw [writepochTrace_keysz]

lemma filterMap_writeTrace_keysz (st : gs) (x : Int) :
    (writeTrace { st with keysz := x }).filterMap appendCallOf =
      (writeTrace st).filterMap appendCallOf := by
  rw [writeTrace_keysz]
  have h2 : writeTrace st =
      Event.openDir (mkconf st) st.dirname ::
        (((List.range st.nepochs.toNat).map (writepochTrace st)).flatten ++
          [Event.finish]) := rfl
  rw [h2, List.filterMap_cons, List.filterMap_cons]
  rfl

lemma specFields_keysz (st : gs) (x : Int) :
    specFields { st with keysz := x } =
      (specFields st).set 7 ("key_size", intDec x) := by
  unfold specFields
  rfl

/-- C9: every key passed to `deltafs_plfsdir_append` is the fixed 19
character rendering of the sequence index and the rank by the format
`f%08x-r%08x`; the configured key size influences neither the appended
keys, epochs, nor values (the append calls of the trace are unchanged
under any key size), and it shows up only as the `key_size` field of the
descriptor. -/
theorem c9_keys_independent_of_keysz :
    (∀ k rank : Int, (writekeyName k rank).length = 19) ∧
    (∀ (st : gs) (k : String) (e : Nat) (vv : String),
        Event.append k e vv ∈ writeTrace st →
        ∃ i : Nat, i < st.nkeys.toNat ∧ k = writekeyName (Int.ofNat i) st.myrank) ∧
    (∀ (st : gs) (x : Int),
        (writeTrace { st with keysz := x }).filterMap appendCallOf =
          (writeTrace st).filterMap appendCallOf) ∧
    (∀ (st : gs) (x : Int),
        specFields { st with keysz := x } =
          (specFields st).set 7 ("key_size", intDec x)) := by
  refine ⟨writekeyName_length, ?_, ?_, ?_⟩
  · intro st k e vv hmem
    exact (append_mem_writeTrace hmem).1
  · intro st x
    exact filterMap_writeTrace_keysz st x
  · intro st x
    exact specFields_keysz st x

/-- C9 witness: the theorem applied to the append call of the concrete
two-epoch trace, whose key has length 19 and is the rendering for
index 0 and rank 0. -/
theorem c9_witness :
    (Event.append (writekeyName 0 0) 0 (filler twoEpochGs) ∈ writeTrace twoEpochGs) ∧
      (∃ i : Nat, i < twoEpochGs.nkeys.toNat ∧
        writekeyName 0 0 = writekeyName (Int.ofNat i) twoEpochGs.myrank) ∧
      (writekeyName 0 0).length = 19 :=
  ⟨by decide,
   c9_keys_independent_of_keysz.2.1 twoEpochGs (writekeyName 0 0) 0
     (filler twoEpochGs) (by decide),
   c9_keys_independent_of_keysz.1 0 0⟩

lemma parseOpts_cons (atoi : String → Int) (st : gs) (o : CmdOpt)
    (rest : List CmdOpt) :
    parseOpts atoi st (o :: rest) =
      match applyOpt atoi st o with
      | .error m => .error m
      | .ok st2 => parseOpts atoi st2 rest := rfl

lemma parseOpts_error_universal (atoi : String → Int) (o : CmdOpt)
    (hbad : ∀ st : gs, ∃ m, applyOpt atoi st o = .error m) :
    ∀ (pre : List CmdOpt) (post : List CmdOpt) (st0 : gs),
      ∃ m, parseOpts atoi st0 (pre ++ o :: post) = .error m := by
  intro pre
  induction pre with
  | nil =>
    intro post st0
    obtain ⟨m, hm⟩ := hbad st0
    exact ⟨m, by rw [List.nil_append, parseOpts_cons, hm]⟩
  | cons p ps ih =>
    intro post st0
    rw [List.cons_append, parseOpts_cons]
    cases hap : applyOpt atoi st0 p with
    | error m => exact ⟨m, rfl⟩
    | ok st1 => exact ih post st1

lemma mainModel_of_opts_error (atoi : String → Int) (mr cs : Int)
    (opts : List CmdOpt) (pos : List String)
    (h : ∃ m, parseOpts atoi (initGs mr cs) opts = .error m) :
    mainModel atoi mr cs opts pos = (1, []) := by
  obtain ⟨m, hm⟩ := h
  simp [mainModel, parseCmdLine, hm]

lemma mainTrace_split (st : gs) :
    mainTrace st =
      (Event.arm st.timeout :: Event.mainBarrier ::
        Event.openDir (mkconf st) st.dirname ::
          ((List.range st.nepochs.toNat).map (writepochTrace st)).flatten) ++
        [Event.finish] := by
  simp [mainTrace, writeTrace]

lemma mainTrace_getLast (st : gs) :
    (mainTrace st).getLast? = some Event.finish := by
  rw [mainTrace_split]
  exact List.getLast?_concat _

/-- C6: the modelled process exits 0 or 1; it exits 0 exactly on a
successful parse followed by the complete run (whose call trace ends with
the finish call); any usage error yields exit status 1 with no session
event issued; each out-of-range option value (io size or key size at
most 0; epoch count, key count, filter bits, value size, background
thread count or timeout below 0) is a usage error no matter where the
option sits on the command line; and the exit status of the fatal error
paths (`vcomplain` and the alarm handler) is 1. -/
theorem c6_cli_validation_and_exit_status :
    (∀ (atoi : String → Int) (mr cs : Int) (opts : List CmdOpt) (pos : List String),
        (mainModel atoi mr cs opts pos).1 = 0 ∨ (mainModel atoi mr cs opts pos).1 = 1) ∧
    (∀ (atoi : String → Int) (mr cs : Int) (opts : List CmdOpt) (pos : List String)
        (st : gs), parseCmdLine atoi mr cs opts pos = .ok st →
        mainModel atoi mr cs opts pos = (0, mainTrace st) ∧
          (mainTrace st).getLast? = some Event.finish) ∧
    (∀ (atoi : String → Int) (mr cs : Int) (opts : List CmdOpt) (pos : List String)
        (m : String), parseCmdLine atoi mr cs opts pos = .error m →
        mainModel atoi mr cs opts pos = (1, [])) ∧
    (∀ (atoi : String → Int) (mr cs : Int) (pre post : List CmdOpt)
        (pos : List String) (a : String), atoi a ≤ 0 →
        mainModel atoi mr cs (pre ++ CmdOpt.s a :: post) pos = (1, [])) ∧
    (∀ (atoi : String → Int) (mr cs : Int) (pre post : List CmdOpt)
        (pos : List String) (a : String), atoi a ≤ 0 →
        mainModel atoi mr cs (pre ++ CmdOpt.k a :: post) pos = (1, [])) ∧
    (∀ (atoi : String → Int) (mr cs : Int) (pre post : List CmdOpt)
        (pos : List String) (a : String), atoi a < 0 →
        mainModel atoi mr cs (pre ++ CmdOpt.e a :: post) pos = (1, [])) ∧
    (∀ (atoi : String → Int) (mr cs : Int) (pre post : List CmdOpt)
        (pos : List String) (a : String), atoi a < 0 →
        mainModel atoi mr cs (pre ++ CmdOpt.n a :: post) pos = (1, [])) ∧
    (∀ (atoi : String → Int) (mr cs : Int) (pre post : List CmdOpt)
        (pos : List String) (a : String), atoi a < 0 →
        mainModel atoi mr cs (pre ++ CmdOpt.f a :: post) pos = (1, [])) ∧
    (∀ (atoi : String → Int) (mr cs : Int) (pre post : List CmdOpt)
        (pos : List String) (a : String), atoi a < 0 →
        mainModel atoi mr cs (pre ++ CmdOpt.d a :: post) pos = (1, [])) ∧
    (∀ (atoi : String → Int) (mr cs : Int) (pre post : List CmdOpt)
        (pos : List String) (a : String), atoi a < 0 →
        mainModel atoi mr cs (pre ++ CmdOpt.j a :: post) pos = (1, [])) ∧
    (∀ (atoi : String → Int) (mr cs : Int) (pre post : List CmdOpt)
        (pos : List String) (a : String), atoi a < 0 →
        mainModel atoi mr cs (pre ++ CmdOpt.t a :: post) pos = (1, [])) ∧
    complainExitCode = 1 ∧ sigalarmExitCode = 1 := by
  refine ⟨?_, ?_, ?_, ?_, ?_, ?_, ?_, ?_, ?_, ?_, ?_, rfl, rfl⟩
  · intro atoi mr cs opts pos
    unfold mainModel
    cases parseCmdLine atoi mr cs opts pos with
    | error m => exact Or.inr rfl
    | ok st => exact Or.inl rfl
  · intro atoi mr cs opts pos st h
    exact ⟨by simp [mainModel, h], mainTrace_getLast st⟩
  · intro atoi mr cs opts pos m h
    simp [mainModel, h]
  · intro atoi mr cs pre post pos a ha
    refine mainModel_of_opts_error _ _ _ _ _
      (parseOpts_error_universal _ _ (fun st => ⟨"bad io size", ?_⟩) pre post _)
    simp [applyOpt, ha]
  · intro atoi mr cs pre post pos a ha
    refine mainModel_of_opts_error _ _ _ _ _
      (parseOpts_error_universal _ _ (fun st => ⟨"bad key size", ?_⟩) pre post _)
    simp [applyOpt, ha]
  · intro atoi mr cs pre post pos a ha
    refine mainModel_of_opts_error _ _ _ _ _
      (parseOpts_error_universal _ _ (fun st => ⟨"bad epoch nums", ?_⟩) pre post _)
    simp [applyOpt, ha]
  · intro atoi mr cs pre post pos a ha
    refine mainModel_of_opts_error _ _ _ _ _
      (parseOpts_error_universal _ _ (fun st => ⟨"bad key nums", ?_⟩) pre post _)
    simp [applyOpt, ha]
  · intro atoi mr cs pre post pos a ha
    refine mainModel_of_opts_error _ _ _ _ _
      (parseOpts_error_universal _ _ (fun st => ⟨"bad filter bits", ?_⟩) pre post _)
    simp [applyOpt, ha]
  · intro atoi mr cs pre post pos a ha
    refine mainModel_of_opts_error _ _ _ _ _
      (parseOpts_error_universal _ _ (fun st => ⟨"bad value size", ?_⟩) pre post _)
    simp [applyOpt, ha]
  · intro atoi mr cs pre post pos a ha
    refine mainModel_of_opts_error _ _ _ _ _
      (parseOpts_error_universal _ _ (fun st => ⟨"bad bg number", ?_⟩) pre post _)
    simp [applyOpt, ha]
  · intro atoi mr cs pre post pos a ha
    refine mainModel_of_opts_error _ _ _ _ _
      (parseOpts_error_universal _ _ (fun st => ⟨"bad timeout", ?_⟩) pre post _)
    simp [applyOpt, ha]

/-- C6 witness: a negative io size value is rejected with exit status 1
and an empty call trace, and a successful parse runs to completion with
exit status 0, both through the theorem at concrete inputs. -/
theorem c6_witness :
    constAtoi (-1) "x" ≤ 0 ∧
    mainModel (constAtoi (-1)) 0 1 ([] ++ CmdOpt.s "x" :: []) ["/d"] = (1, []) ∧
    mainModel (constAtoi 1) 0 1 [] ["/d"] =
      (0, mainTrace { initGs 0 1 with dirname := "/d" }) :=
  ⟨by decide,
   c6_cli_validation_and_exit_status.2.2.2.1 (constAtoi (-1)) 0 1 [] [] ["/d"] "x"
     (by decide),
   (c6_cli_validation_and_exit_status.2.1 (constAtoi 1) 0 1 [] ["/d"]
     { initGs 0 1 with dirname := "/d" } rfl).1⟩

/-- C10: whenever a third positional argument is supplied and its `atoi`
value is at most 0, the run is rejected as a usage error (exit status 1,
no call issued), even when the `-b` flag that would make the port
meaningful is absent from the command line. -/
theorem c10_port_checked_without_bbos (atoi : String → Int) (mr cs : Int)
    (opts : List CmdOpt) (dir host pstr : String) (rest : List String)
    (hport : atoi pstr ≤ 0) (hnob : CmdOpt.b ∉ opts) :
    mainModel atoi mr cs opts (dir :: host :: pstr :: rest) = (1, []) := by
  cases hp : parseOpts atoi (initGs mr cs) opts with
  | error m => simp [mainModel, parseCmdLine, hp]
  | ok st => simp [mainModel, parseCmdLine, hp, parsePositional, hport]

/-- C10 witness: the theorem at a concrete command line with port value 0
and no `-b` flag. -/
theorem c10_witness :
    mainModel (constAtoi 0) 0 1 [CmdOpt.v] ["/d", "h", "0"] = (1, []) :=
  c10_port_checked_without_bbos (constAtoi 0) 0 1 [CmdOpt.v] "/d" "h" "0" []
    (by decide) (by decide)

lemma countP_writepochTrace_arm (st : gs) (e2 : Nat) :
    (writepochTrace st e2).countP isArm = 0 := by
  unfold writepochTrace
  rw [List.countP_append, List.countP_map]
  have h1 : (isArm ∘ fun i =>
      Event.append (writekeyName (Int.ofNat i) st.myrank) e2 (filler st)) =
      fun _ => false := rfl
  rw [h1]
  simp [List.countP_false, List.countP_cons, isArm]

lemma finish_not_mem_prefix (st : gs) (x : Event)
    (hx : x ∈ Event.arm st.timeout :: Event.mainBarrier ::
      Event.openDir (mkconf st) st.dirname ::
        ((List.range st.nepochs.toNat).map (writepochTrace st)).flatten) :
    x ≠ Event.finish := by
  rcases List.mem_cons.1 hx with h | h
  · subst h; simp
  rcases List.mem_cons.1 h with h1 | h1
  · subst h1; simp
  rcases List.mem_cons.1 h1 with h2 | h2
  · subst h2; simp
  obtain ⟨l, hl, hxl⟩ := List.mem_flatten.1 h2
  obtain ⟨e2, _, hle⟩ := List.mem_map.1 hl
  subst hle
  rcases mem_writepochTrace hxl with ⟨i, _, hxe⟩ | hxe | hxe <;> subst hxe <;> simp

/-- C7: the watchdog deadline is armed exactly once, as the very first
action of the run, with the configured timeout; and whenever the alarm
fires at any point strictly before the run has completed, the observed
exit status is the nonzero status of the `sigalarm` handler and the
finish call never happened. -/
theorem c7_watchdog_bounds_run (st : gs) (n : Nat)
    (hn : n < (mainTrace st).length) :
    (mainTrace st).head? = some (Event.arm st.timeout) ∧
    (mainTrace st).countP isArm = 1 ∧
    (alarmedRun st n).1 = sigalarmExitCode ∧ (alarmedRun st n).1 ≠ 0 ∧
    Event.finish ∉ (alarmedRun st n).2 := by
  refine ⟨rfl, ?_, rfl, by simp [alarmedRun, sigalarmExitCode], ?_⟩
  · show (Event.arm st.timeout :: Event.mainBarrier :: writeTrace st).countP isArm = 1
    rw [List.countP_cons, List.countP_cons]
    rw [countP_writeTrace st isArm rfl rfl (fun _ => 0)
      (fun e2 => countP_writepochTrace_arm st e2)]
    simp [isArm]
  · intro hmem
    have hsplit := mainTrace_split st
    have hlen : n ≤ (Event.arm st.timeout :: Event.mainBarrier ::
        Event.openDir (mkconf st) st.dirname ::
          ((List.range st.nepochs.toNat).map (writepochTrace st)).flatten).length := by
      have hml : (mainTrace st).length =
          (Event.arm st.timeout :: Event.mainBarrier ::
            Event.openDir (mkconf st) st.dirname ::
              ((List.range st.nepochs.toNat).map (writepochTrace st)).flatten).length + 1 := by
        rw [hsplit]
        simp
      omega
    have htake : (alarmedRun st n).2 =
        (Event.arm st.timeout :: Event.mainBarrier ::
          Event.openDir (mkconf st) st.dirname ::
            ((List.range st.nepochs.toNat).map (writepochTrace st)).flatten).take n := by
      show (mainTrace st).take n = _
      rw [hsplit]
      exact List.take_append_of_le_length hlen
    rw [htake] at hmem
    exact finish_not_mem_prefix st Event.finish (List.take_subset _ _ hmem) rfl

/-- C7 witness: the theorem at the concrete two-epoch run interrupted
after its first event. -/
theorem c7_witness :
    1 < (mainTrace twoEpochGs).length ∧
    (mainTrace twoEpochGs).head? = some (Event.arm twoEpochGs.timeout) ∧
    Event.finish ∉ (alarmedRun twoEpochGs 1).2 :=
  ⟨by decide,
   (c7_watchdog_bounds_run twoEpochGs 1 (by decide)).1,
   (c7_watchdog_bounds_run twoEpochGs 1 (by decide)).2.2.2.2⟩

end PlfsdirRunner
